import Mathlib

/-!
A shallow embedding of `src/Publications/parse_bib.py` (a BibTeX-to-HTML
publication-list generator) together with proofs about the claims made by
the specification.  Strings are modelled as `List Char`; Python string
operations (`str.lower`, `str.strip`, substring tests, `re` scans with the
fixed patterns of the script, `int(...)`) are modelled on the ASCII
fragment the script actually exercises.
-/

namespace ParseBib

/-- Strings are modelled as lists of characters. -/
abbrev Str := List Char

/-- The backslash character. -/
def bslash : Char := '\\'

/-- The double-quote character. -/
def dquote : Char := Char.ofNat 34

/-- The single-quote character. -/
def squote : Char := Char.ofNat 39

/-- The backtick character. -/
def btick : Char := Char.ofNat 96

/-- ASCII fragment of Python's whitespace class (`\s`, `str.strip`). -/
def isPySpace (c : Char) : Bool :=
  c = ' ' ∨ c = '\t' ∨ c = '\n' ∨ c = '\x0d' ∨ c = '\x0c' ∨ c = '\x0b'

/-- ASCII fragment of Python's word class `\w`. -/
def isWordChar (c : Char) : Bool := c.isAlphanum || c = '_'

/-- Python `str.lower()` on the ASCII fragment. -/
def pyLower (s : Str) : Str := s.map Char.toLower

/-- Python `str.strip()`: drop whitespace from both ends. -/
def pyStrip (s : Str) : Str :=
  ((s.dropWhile isPySpace).reverse.dropWhile isPySpace).reverse

/-- `pfx pat s`: does `s` start with `pat`? -/
def pfx : Str → Str → Bool
  | [], _ => true
  | _ :: _, [] => false
  | p :: ps, c :: cs => p = c && pfx ps cs

/-- Python's `pat in s` contiguous-substring test. -/
def containsSub (pat : Str) : Str → Bool
  | [] => pat.isEmpty
  | c :: rest => pfx pat (c :: rest) || containsSub pat rest

/-- Python `s.replace(c, '')` for a single character `c`. -/
def removeChar (c : Char) : Str → Str
  | [] => []
  | x :: rest => if x = c then removeChar c rest else x :: removeChar c rest

/-- Field map lookup (Python `dict` access by key). -/
def lookupField : List (Str × Str) → Str → Option Str
  | [], _ => none
  | p :: rest, n => if p.1 = n then some p.2 else lookupField rest n

/-- Python `fields.get(name, dflt)`. -/
def getField (fields : List (Str × Str)) (name dflt : Str) : Str :=
  (lookupField fields name).getD dflt

/-- Python `fields[name] = value` (later writes shadow earlier ones). -/
def setField (fields : List (Str × Str)) (name value : Str) : List (Str × Str) :=
  (name, value) :: fields

/-- The brace-depth scan of `parse_bibtex` (lines 36-45): starting just after
the opening brace with depth 1, walk the line chars keeping a depth counter;
on reaching depth 0 return the chars walked so far (the field value), and if
the line ends first return nothing. -/
def braceScan : Str → Nat → Option Str
  | [], _ => none
  | c :: rest, count =>
    let count' := if c = '{' then count + 1 else if c = '}' then count - 1 else count
    if count' = 0 then some []
    else (braceScan rest count').map (fun v => c :: v)

/-- The shared `(\w+)\s*=\s*` head of both field regexes of `parse_bibtex`:
a nonempty run of word chars, optional spaces, `=`, optional spaces.  Returns
the field name and the rest of the line. -/
def matchEq (line : Str) : Option (Str × Str) :=
  let name := line.takeWhile isWordChar
  if name = [] then none
  else
    match (line.dropWhile isWordChar).dropWhile isPySpace with
    | '=' :: r => some (name, r.dropWhile isPySpace)
    | _ => none

/-- The regex `(\w+)\s*=\s*\{` of line 32: on success, the rest starts just
after the opening brace (the first `{` of the line). -/
def matchFieldBrace (line : Str) : Option (Str × Str) :=
  match matchEq line with
  | some (n, '{' :: r) => some (n, r)
  | _ => none

/-- The regex `(\w+)\s*=\s*"([^"]*)"` of line 50 (quoted values, no nesting:
the first closing quote wins). -/
def matchQuoted (line : Str) : Option (Str × Str) :=
  match matchEq line with
  | some (n, c :: r) =>
    if c = dquote then
      let v := r.takeWhile (fun x => decide (x ≠ dquote))
      match r.drop v.length with
      | d :: _ => if d = dquote then some (n, v) else none
      | [] => none
    else none
  | _ => none

/-- One iteration of the field loop of `parse_bibtex` (lines 25-54): strip the
line, skip blank and `%` lines, try the braced form (adding the field only if
the depth scan closes), otherwise try the quoted form. -/
def processLine (fields : List (Str × Str)) (line0 : Str) : List (Str × Str) :=
  let line := pyStrip line0
  if line = [] then fields
  else if line.headD ' ' = '%' then fields
  else
    match matchFieldBrace line with
    | some (name, rest) =>
      match braceScan rest 1 with
      | some v => setField fields name v
      | none => fields
    | none =>
      match matchQuoted line with
      | some (name, v) => setField fields name v
      | none => fields

/-- Python `entry_content.split('\n')`. -/
def splitLines : Str → List Str
  | [] => [[]]
  | c :: rest =>
    if c = '\n' then [] :: splitLines rest
    else
      match splitLines rest with
      | [] => [[c]]
      | l :: ls => (c :: l) :: ls

/-- The field map built from one entry body (lines 23-54). -/
def parseFields (body : Str) : List (Str × Str) :=
  (splitLines body).foldl processLine []

/-- A parsed record: entry type, citation key, raw field map. -/
structure Entry where
  type : Str
  key : Str
  fields : List (Str × Str)
deriving DecidableEq

/-- Checking depth-balance of a brace string starting from depth `d`:
never dips below zero and ends at zero. -/
def balancedFrom : Str → Nat → Bool
  | [], d => d = 0
  | c :: rest, d =>
    if c = '{' then balancedFrom rest (d + 1)
    else if c = '}' then decide (0 < d) && balancedFrom rest (d - 1)
    else balancedFrom rest d

/-- The normalized title used as the deduplication key (line 57):
`fields.get('title','').strip().lower().replace('{','').replace('}','')`. -/
def normTitle (fields : List (Str × Str)) : Str :=
  removeChar '}' (removeChar '{' (pyLower (pyStrip (getField fields "title".data []))))

/-- The inline deduplication of `parse_bibtex` (lines 56-69): walk the parsed
entries in source order carrying the seen-title set and the duplicate
counter; drop (and count) an entry whose normalized title is nonempty and
already seen, otherwise keep it and record a nonempty title as seen. -/
def dedup : List Entry → List Str → Nat → List Entry × Nat
  | [], _, cnt => ([], cnt)
  | e :: rest, seen, cnt =>
    let t := normTitle e.fields
    if t ≠ [] ∧ t ∈ seen then dedup rest seen (cnt + 1)
    else
      let seen' := if t = [] then seen else t :: seen
      let r := dedup rest (seen') cnt
      (e :: r.1, r.2)

/-- Building one record from a raw regex match `@type{key, body\n}` of the
entry pattern (line 15): the type tag, the key, and the field map parsed
from the body. -/
def buildEntry (m : Str × Str × Str) : Entry :=
  ⟨m.1, m.2.1, parseFields m.2.2⟩

/-- `parse_bibtex` downstream of the entry regex: build records from the raw
matches in source order and deduplicate inline; returns the surviving
entries and the duplicate count. -/
def parse_bibtex (ms : List (Str × Str × Str)) : List Entry × Nat :=
  dedup (ms.map buildEntry) [] 0

/-- ASCII fragment of Python `int(...)` on decimal digit runs. -/
def parseDigits : Str → Option Nat
  | [] => none
  | ds =>
    if ds.all Char.isDigit then
      some (ds.foldl (fun a c => a * 10 + (c.toNat - 48)) 0)
    else none

/-- Python `int(str)` on the ASCII fragment: strip whitespace, optional
sign, nonempty digit run (digit-group underscores are not modelled; the
script's year fields never contain them). -/
def pyInt (s : Str) : Option Int :=
  match pyStrip s with
  | '+' :: ds => (parseDigits ds).map (fun n => (n : Int))
  | '-' :: ds => (parseDigits ds).map (fun n => -(n : Int))
  | ds => (parseDigits ds).map (fun n => (n : Int))

/-- `extract_year` (lines 76-86): read the year field with default `'0000'`,
parse it as an integer (any failure yields the sentinel 0), and correct the
known Google-Scholar artifact 1804 to 2018. -/
def extract_year (e : Entry) : Int :=
  match pyInt (getField e.fields "year".data "0000".data) with
  | some y => if y = 1804 then 2018 else y
  | none => 0

/-- The journal exclusion list of `is_top_journal` (line 94). -/
def journalExcluded : List Str := ["arxiv".data, "corr".data, "medrxiv".data]

/-- `is_top_journal` (lines 88-98): nonempty journal whose lower-cased name
contains none of the excluded substrings. -/
def is_top_journal (journal_name : Str) : Bool :=
  if journal_name = [] then false
  else
    let journal_lower := pyLower journal_name
    if journalExcluded.any (fun exc => containsSub exc journal_lower) then false
    else true

/-- The conference exclusion list of `is_top_conference` (line 106). -/
def confExcluded : List Str :=
  ["workshop".data, "bvm".data, "bildverarbeitung".data, "rofo".data, "fortschritte".data]

/-- `is_top_conference` (lines 100-110): empty venues are not top-tier; a
venue containing `arxiv` is excluded unless it also contains `medrxiv`
(the carve-out); otherwise the venue is top-tier iff it contains none of
the excluded substrings. -/
def is_top_conference (venue : Str) : Bool :=
  if venue = [] then false
  else
    let venue_lower := pyLower venue
    if containsSub "arxiv".data venue_lower && !containsSub "medrxiv".data venue_lower then
      false
    else !(confExcluded.any (fun exc => containsSub exc venue_lower))

/-- Table lookup for the accent-substitution character classes. -/
def lookupTbl : List (Char × Char) → Char → Option Char
  | [], _ => none
  | p :: rest, c => if c = p.1 then some p.2 else lookupTbl rest c

/-- Generic left-to-right scan shared by the `re.sub` and `str.replace`
models, with fuel for structural termination: at each position, `step`
either matches (yielding replacement text and the remainder after the
match, where scanning resumes) or the character is copied.  `scan` below
supplies adequate fuel. -/
def scanAux (step : Str → Option (Str × Str)) : Nat → Str → Str
  | _, [] => []
  | 0, s => s
  | fuel + 1, c :: t =>
    match step (c :: t) with
    | some (out, rest) => out ++ scanAux step fuel rest
    | none => c :: scanAux step fuel t

/-- Left-to-right, leftmost, non-overlapping substitution scan (the
behavior of `re.sub` and `str.replace` for the fixed patterns of the
script, all of which consume at least one character per match). -/
def scan (step : Str → Option (Str × Str)) (s : Str) : Str :=
  scanAux step s.length s

/-- Consume the optional closing brace (`\}?`, greedy) after an accent
escape. -/
def dropHeadBrace (u : Str) : Str :=
  if u.headD ' ' = '}' then u.tail else u

/-- The mandatory part of a two-character accent escape: the escape head
`e1 e2`, a class character from `tbl`, then the optional closing brace. -/
def tryCore2 (e1 e2 : Char) (tbl : List (Char × Char)) : Str → Option (Char × Str)
  | a :: b :: x :: u =>
    if a = e1 ∧ b = e2 then (lookupTbl tbl x).map (fun r => (r, dropHeadBrace u))
    else none
  | _ => none

/-- A whole accent-escape match `\{? e1 e2 [class] \}?` at the current
position: the greedy optional `{` is tried first, then the bare form. -/
def tryPat2 (e1 e2 : Char) (tbl : List (Char × Char)) (s : Str) : Option (Char × Str) :=
  if s.headD ' ' = '{' then
    match tryCore2 e1 e2 tbl s.tail with
    | some rs => some rs
    | none => tryCore2 e1 e2 tbl s
  else tryCore2 e1 e2 tbl s

/-- As `tryCore2` for the three-character escape heads (`\c` + space). -/
def tryCore3 (e1 e2 e3 : Char) (tbl : List (Char × Char)) : Str → Option (Char × Str)
  | a :: b :: b2 :: x :: u =>
    if a = e1 ∧ b = e2 ∧ b2 = e3 then (lookupTbl tbl x).map (fun r => (r, dropHeadBrace u))
    else none
  | _ => none

/-- As `tryPat2` for the three-character escape heads. -/
def tryPat3 (e1 e2 e3 : Char) (tbl : List (Char × Char)) (s : Str) : Option (Char × Str) :=
  if s.headD ' ' = '{' then
    match tryCore3 e1 e2 e3 tbl s.tail with
    | some rs => some rs
    | none => tryCore3 e1 e2 e3 tbl s
  else tryCore3 e1 e2 e3 tbl s

/-- One `re.sub(r'\{?<esc>([class])\}?', tbl, ...)` stage with a
two-character escape head. -/
def subPat2 (e1 e2 : Char) (tbl : List (Char × Char)) (s : Str) : Str :=
  scan (fun u => (tryPat2 e1 e2 tbl u).map (fun p => ([p.1], p.2))) s

/-- One substitution stage with a three-character escape head. -/
def subPat3 (e1 e2 e3 : Char) (tbl : List (Char × Char)) (s : Str) : Str :=
  scan (fun u => (tryPat3 e1 e2 e3 tbl u).map (fun p => ([p.1], p.2))) s

/-- The umlaut table of line 118. -/
def umlautTbl : List (Char × Char) :=
  [('a', 'ä'), ('o', 'ö'), ('u', 'ü'), ('A', 'Ä'), ('O', 'Ö'), ('U', 'Ü')]

/-- The acute-accent table of line 121. -/
def acuteTbl : List (Char × Char) :=
  [('e', 'é'), ('a', 'á'), ('i', 'í'), ('o', 'ó'), ('u', 'ú'),
   ('E', 'É'), ('A', 'Á'), ('I', 'Í'), ('O', 'Ó'), ('U', 'Ú')]

/-- The grave-accent table of line 122. -/
def graveTbl : List (Char × Char) :=
  [('e', 'è'), ('a', 'à'), ('i', 'ì'), ('o', 'ò'), ('u', 'ù'),
   ('E', 'È'), ('A', 'À'), ('I', 'Ì'), ('O', 'Ò'), ('U', 'Ù')]

/-- The circumflex table of line 123. -/
def circTbl : List (Char × Char) :=
  [('e', 'ê'), ('a', 'â'), ('i', 'î'), ('o', 'ô'), ('u', 'û'),
   ('E', 'Ê'), ('A', 'Â'), ('I', 'Î'), ('O', 'Ô'), ('U', 'Û')]

/-- The tilde table of line 124. -/
def tildeTbl : List (Char × Char) :=
  [('n', 'ñ'), ('N', 'Ñ'), ('o', 'õ'), ('O', 'Õ')]

/-- The matcher of Python `authors.replace(' and ', ', ')` (line 133). -/
def andStep (s : Str) : Option (Str × Str) :=
  if pfx " and ".data s then some (", ".data, s.drop 5) else none

/-- `authors.replace(' and ', ', ')`: leftmost, non-overlapping. -/
def andSub (s : Str) : Str := scan andStep s

/-- The `\b` check after `Kainz, Bernhard` (line 136): the next character,
if any, is not a word character (`d` before the boundary is one). -/
def boundaryOk : Str → Bool
  | [] => true
  | c :: _ => !isWordChar c

/-- The matcher of `re.sub(r'Kainz, Bernhard\b', 'Kainz, B.', authors)`
(line 136). -/
def kainzStep (s : Str) : Option (Str × Str) :=
  if pfx "Kainz, Bernhard".data s ∧ boundaryOk (s.drop 15) then
    some ("Kainz, B.".data, s.drop 15)
  else none

/-- The distinguished-author normalization of line 136. -/
def kainzSub (s : Str) : Str := scan kainzStep s

/-- `format_authors` (lines 112-138): decode the accent escapes through the
eight substitution stages in source order, strip remaining braces, replace
the `and` separators by commas, and normalize the distinguished author
name. -/
def format_authors (authors : Str) : Str :=
  if authors = [] then []
  else
    let a1 := subPat2 bslash dquote umlautTbl authors
    let a2 := subPat2 bslash squote acuteTbl a1
    let a3 := subPat2 bslash btick graveTbl a2
    let a4 := subPat2 bslash '^' circTbl a3
    let a5 := subPat2 bslash '~' tildeTbl a4
    let a6 := subPat3 bslash 'c' ' ' [('c', 'ç')] a5
    let a7 := subPat3 bslash 'c' ' ' [('C', 'Ç')] a6
    let a8 := subPat2 bslash 's' [('s', 'ß')] a7
    let a9 := removeChar '}' (removeChar '{' a8)
    let a10 := andSub a9
    kainzSub a10

/-- The closing part of one entry's HTML (lines 209-212): close
`pub-content` when numbering is on, then `pub-entry` and the list item. -/
def closeEntry (number : Option Nat) : Str :=
  (match number with
   | some _ => "    </div>\n".data
   | none => []) ++ "  </div>\n".data ++ "</li>\n".data

/-- `format_entry` (lines 140-214): render one record as an HTML list item
and report whether it was classified top-tier.  The `article` and
`inproceedings` branches classify and render venue details; every other
type renders only title, authors and the raw year. -/
def format_entry (entry : Entry) (number : Option Nat) : Str × Bool :=
  let fields := entry.fields
  let title0 := getField fields "title".data "No title".data
  let authors := format_authors (getField fields "author".data [])
  let year := getField fields "year".data []
  let title := removeChar '}' (removeChar '{' title0)
  let html1 := "<li>\n".data ++ "  <div class=\"pub-entry\">\n".data
  let html2 := html1 ++
    (match number with
     | some n =>
       "    <div class=\"pub-number\">[".data ++ (toString n).data ++ "]</div>\n".data ++
         "    <div class=\"pub-content\">\n".data
     | none => [])
  if entry.type = "article".data then
    let journal := getField fields "journal".data []
    let volume := getField fields "volume".data []
    let number_field := getField fields "number".data []
    let pages := getField fields "pages".data []
    let is_top := is_top_journal journal
    let badge :=
      if is_top then "<span class=\"badge badge-journal\">Top Journal</span>".data else []
    let html3 := html2 ++ "    <div class=\"pub-title\">".data ++ title ++ " ".data ++ badge ++
      "</div>\n".data
    let html4 := html3 ++ "    <div class=\"pub-authors\">".data ++ authors ++ "</div>\n".data
    let html5 := html4 ++ "    <div class=\"pub-venue\"><em>".data ++ journal ++ "</em>".data ++
      (if volume ≠ [] then ", ".data ++ volume else []) ++
      (if number_field ≠ [] then "(".data ++ number_field ++ ")".data else []) ++
      (if pages ≠ [] then ":".data ++ pages else []) ++
      ", ".data ++ year ++ "</div>\n".data
    (html5 ++ closeEntry number, is_top)
  else if entry.type = "inproceedings".data then
    let booktitle := getField fields "booktitle".data []
    let pages := getField fields "pages".data []
    let is_top := is_top_conference booktitle
    let badge :=
      if is_top then "<span class=\"badge badge-conference\">Top Conference</span>".data else []
    let html3 := html2 ++ "    <div class=\"pub-title\">".data ++ title ++ " ".data ++ badge ++
      "</div>\n".data
    let html4 := html3 ++ "    <div class=\"pub-authors\">".data ++ authors ++ "</div>\n".data
    let html5 := html4 ++ "    <div class=\"pub-venue\">In <em>".data ++ booktitle ++
      "</em>".data ++
      (if pages ≠ [] then ", pp. ".data ++ pages else []) ++
      ", ".data ++ year ++ "</div>\n".data
    (html5 ++ closeEntry number, is_top)
  else
    let html3 := html2 ++ "    <div class=\"pub-title\">".data ++ title ++ "</div>\n".data
    let html4 := html3 ++ "    <div class=\"pub-authors\">".data ++ authors ++ "</div>\n".data
    let html5 := html4 ++ "    <div class=\"pub-venue\">".data ++ year ++ "</div>\n".data
    (html5 ++ closeEntry number, false)

/-- The year bucket of `generate_publication_list` (lines 219-222): the
entries of a given extracted year, in source order. -/
def bucket (es : List Entry) (y : Int) : List Entry :=
  es.filter (fun e => decide (extract_year e = y))

/-- Key-set accumulation of `defaultdict(list)` (first-occurrence order). -/
def insertYear (ys : List Int) (y : Int) : List Int :=
  if y ∈ ys then ys else ys ++ [y]

/-- The distinct extracted years of the entry list, in first-occurrence
order (the key set of `by_year`). -/
def uniqueYears (es : List Entry) : List Int :=
  es.foldl (fun ys e => insertYear ys (extract_year e)) []

/-- Insertion into a descending-sorted list. -/
def insertDesc (y : Int) : List Int → List Int
  | [] => [y]
  | x :: xs => if x ≤ y then y :: x :: xs else x :: insertDesc y xs

/-- `sorted(by_year.keys(), reverse=True)` (line 225): the distinct years
in descending order (insertion sort; extensionally the unique result on
duplicate-free input). -/
def sortDesc : List Int → List Int
  | [] => []
  | y :: ys => insertDesc y (sortDesc ys)

/-- `total_pubs` (line 228): the number of records in all non-sentinel year
buckets. -/
def totalPubs (es : List Entry) : Nat :=
  ((sortDesc (uniqueYears es)).filter (fun y => decide (y ≠ 0))).foldl
    (fun a y => a + (bucket es y).length) 0

/-- The inner loop of lines 240-243: append each entry's HTML, numbered by
the global counter, decrementing it per entry. -/
def renderBucket (b : List Entry) (acc : Str × Nat) : Str × Nat :=
  b.foldl (fun a e => (a.1 ++ (format_entry e (some a.2)).1, a.2 - 1)) acc

/-- One iteration of the year loop of lines 234-245: skip the sentinel
bucket, otherwise emit the year heading, the list opening, the bucket's
entries (decrementing the global counter), and the list closing. -/
def yearStep (es : List Entry) (acc : Str × Nat) (y : Int) : Str × Nat :=
  if y = 0 then acc
  else
    let acc1 := acc.1 ++ "<h3>".data ++ (toString y).data ++ "</h3>\n".data ++
      "<ul class=\"publication-list\">\n".data
    let r := renderBucket (bucket es y) (acc1, acc.2)
    (r.1 ++ "</ul>\n".data, r.2)

/-- `generate_publication_list` (lines 216-247): group by extracted year,
render the year sections in descending order skipping the sentinel bucket,
numbering entries from `total_pubs` down with one global counter. -/
def generate_publication_list (es : List Entry) : Str :=
  ((sortDesc (uniqueYears es)).foldl (yearStep es) ([], totalPubs es)).1

/-- The final console count of line 257 (`len(entries)`), covering every
surviving record, sentinel-year ones included. -/
def finalCount (es : List Entry) : Nat := es.length

/-- The non-sentinel years in rendering order. -/
def renderYears (es : List Entry) : List Int :=
  (sortDesc (uniqueYears es)).filter (fun y => decide (y ≠ 0))

/-- All rendered records in rendering order (year-descending, within-year
insertion order). -/
def renderOrder (es : List Entry) : List Entry :=
  (renderYears es).foldr (fun y acc => bucket es y ++ acc) []

/-- Modelled from the claim's wording for comparison with the source
renderer: the record at global rendering position `p` (0-based, across all
sections) is numbered `total - p`, so numbers run from the total count down
to 1 with a single global countdown never reset per year. -/
def renderBucketSpec (b : List Entry) (total p : Nat) : Str :=
  match b with
  | [] => []
  | e :: rest => (format_entry e (some (total - p))).1 ++ renderBucketSpec rest total (p + 1)

/-- Modelled from the claim's wording: assemble the year sections with the
closed-form global numbering of `renderBucketSpec`. -/
def goSpec (es : List Entry) (total : Nat) : List Int → Nat → Str
  | [], _ => []
  | y :: ys, p =>
    "<h3>".data ++ (toString y).data ++ "</h3>\n".data ++
      "<ul class=\"publication-list\">\n".data ++
      renderBucketSpec (bucket es y) total p ++ "</ul>\n".data ++
      goSpec es total ys (p + (bucket es y).length)

/-- Modelled from the claim's wording: the whole listing with closed-form
global numbering. -/
def generateSpec (es : List Entry) : Str :=
  goSpec es (totalPubs es) (renderYears es) 0

/-! ### Basic lemmas about the string primitives -/

theorem pfx_append_self (l t : Str) : pfx l (l ++ t) = true := by
  induction l with
  | nil => rfl
  | cons c cs ih => simp [pfx, ih]

theorem containsSub_empty_pat (s : Str) : containsSub [] s = true := by
  cases s <;> simp [containsSub, pfx, List.isEmpty]

theorem containsSub_append_right (pat s t : Str) (h : containsSub pat t = true) :
    containsSub pat (s ++ t) = true := by
  induction s with
  | nil => simpa using h
  | cons c cs ih => simp [containsSub, ih]

theorem containsSub_parts (pat pre post : Str) :
    containsSub pat (pre ++ (pat ++ post)) = true := by
  apply containsSub_append_right
  cases pat with
  | nil => exact containsSub_empty_pat _
  | cons c cs =>
    have h := pfx_append_self (c :: cs) post
    rw [List.cons_append] at h ⊢
    simp [containsSub, h]

theorem pfx_append_of (p : Str) : ∀ s t : Str, pfx p s = true → pfx p (s ++ t) = true := by
  induction p with
  | nil => intro s t _; rfl
  | cons a as ih =>
    intro s t h
    cases s with
    | nil => cases h
    | cons b bs =>
      simp only [pfx, Bool.and_eq_true] at h
      simp only [List.cons_append, pfx, Bool.and_eq_true]
      exact ⟨h.1, ih bs t h.2⟩

theorem containsSub_append_left (pat s t : Str) (h : containsSub pat s = true) :
    containsSub pat (s ++ t) = true := by
  induction s with
  | nil =>
    simp only [containsSub, List.isEmpty_iff] at h
    subst h
    exact containsSub_empty_pat _
  | cons c cs ih =>
    simp only [containsSub, Bool.or_eq_true] at h
    rcases h with h | h
    · have := pfx_append_of pat (c :: cs) t h
      simp only [List.cons_append] at this ⊢
      simp [containsSub, this]
    · simp [containsSub, ih h]

theorem nonWord_of_space (c : Char) (h : isPySpace c = true) : isWordChar c = false := by
  simp only [isPySpace, decide_eq_true_eq] at h
  rcases h with h | h | h | h | h | h <;> subst h <;> decide

theorem nonSpace_of_word (c : Char) (h : isWordChar c = true) : isPySpace c = false := by
  by_contra hc
  have := nonWord_of_space c (by revert hc; cases isPySpace c <;> simp)
  rw [h] at this
  cases this

/-! ### Lemmas for claim 1: brace-depth field extraction -/

theorem takeWhile_append_head (p : Char → Bool) :
    ∀ (l1 l2 : Str), (∀ c ∈ l1, p c = true) → (∀ c, l2.head? = some c → p c = false) →
    (l1 ++ l2).takeWhile p = l1 := by
  intro l1 l2 h1 h2
  induction l1 with
  | nil =>
    simp only [List.nil_append]
    cases l2 with
    | nil => rfl
    | cons c t => simp [List.takeWhile_cons, h2 c rfl]
  | cons a l1' ih =>
    have ha : p a = true := h1 a (by simp)
    simp only [List.cons_append, List.takeWhile_cons, ha, if_true]
    rw [ih (fun c hc => h1 c (by simp [hc]))]

theorem dropWhile_append_head (p : Char → Bool) :
    ∀ (l1 l2 : Str), (∀ c ∈ l1, p c = true) → (∀ c, l2.head? = some c → p c = false) →
    (l1 ++ l2).dropWhile p = l2 := by
  intro l1 l2 h1 h2
  induction l1 with
  | nil =>
    simp only [List.nil_append]
    cases l2 with
    | nil => rfl
    | cons c t => simp [List.dropWhile_cons, h2 c rfl]
  | cons a l1' ih =>
    have ha : p a = true := h1 a (by simp)
    simp only [List.cons_append, List.dropWhile_cons, ha, if_true]
    exact ih (fun c hc => h1 c (by simp [hc]))

theorem dropWhile_append_mid (p : Char → Bool) (c : Char) (hc : p c = false) :
    ∀ (x y : Str), (x ++ c :: y).dropWhile p = x.dropWhile p ++ c :: y := by
  intro x y
  induction x with
  | nil => simp [List.dropWhile_cons, hc]
  | cons a x' ih =>
    by_cases ha : p a = true
    · simp [List.dropWhile_cons, ha, ih]
    · simp at ha
      simp [List.dropWhile_cons, ha]

/-- Stripping a line that starts with a non-space character and whose tail
has the shape `A ++ '}' :: rest` only right-strips `rest`. -/
theorem pyStrip_shape (A rest : Str) (hhead : ∀ c, A.head? = some c → isPySpace c = false)
    (hA : A ≠ []) :
    pyStrip (A ++ '}' :: rest) =
      A ++ '}' :: (rest.reverse.dropWhile isPySpace).reverse := by
  unfold pyStrip
  have h1 : (A ++ '}' :: rest).dropWhile isPySpace = A ++ '}' :: rest := by
    cases A with
    | nil => cases hA rfl
    | cons a A' =>
      simp only [List.cons_append, List.dropWhile_cons, hhead a rfl]
      simp
  rw [h1]
  have h2 : (A ++ '}' :: rest).reverse = rest.reverse ++ '}' :: A.reverse := by
    simp
  rw [h2, dropWhile_append_mid isPySpace '}' (by decide)]
  simp

theorem braceScan_balanced (v : Str) :
    ∀ (d : Nat) (rest : Str), balancedFrom v d = true →
    braceScan (v ++ rest) (d + 1) = (braceScan rest 1).map (fun w => v ++ w) := by
  induction v with
  | nil =>
    intro d rest h
    have hd : d = 0 := by simpa [balancedFrom] using h
    subst hd
    simp only [List.nil_append]
    cases braceScan rest 1 <;> simp
  | cons c v' ih =>
    intro d rest h
    by_cases hc : c = '{'
    · subst hc
      have hb : balancedFrom v' (d + 1) = true := by simpa [balancedFrom] using h
      have e2 : d + 1 + 1 ≠ 0 := by omega
      have step : braceScan (('{' :: v') ++ rest) (d + 1) =
          (braceScan (v' ++ rest) (d + 1 + 1)).map (fun w => '{' :: w) := by
        simp [braceScan, e2]
      rw [step, ih (d + 1) rest hb]
      cases braceScan rest 1 <;> simp
    · by_cases hc2 : c = '}'
      · subst hc2
        have h' : 0 < d ∧ balancedFrom v' (d - 1) = true := by
          simpa [balancedFrom] using h
        obtain ⟨hd, hb⟩ := h'
        have e1 : d + 1 - 1 = d := by omega
        have e2 : d ≠ 0 := by omega
        have step : braceScan (('}' :: v') ++ rest) (d + 1) =
            (braceScan (v' ++ rest) d).map (fun w => '}' :: w) := by
          simp [braceScan, e1, e2]
        rw [step]
        have e3 : d - 1 + 1 = d := by omega
        have hih := ih (d - 1) rest hb
        rw [e3] at hih
        rw [hih]
        cases braceScan rest 1 <;> simp
      · have hb : balancedFrom v' d = true := by simpa [balancedFrom, hc, hc2] using h
        have e2 : d + 1 ≠ 0 := by omega
        have step : braceScan ((c :: v') ++ rest) (d + 1) =
            (braceScan (v' ++ rest) (d + 1)).map (fun w => c :: w) := by
          simp [braceScan, hc, hc2, e2]
        rw [step, ih d rest hb]
        cases braceScan rest 1 <;> simp

/-- The depth scan of a balanced value followed by its closing brace
returns exactly the value, whatever follows the closing brace. -/
theorem braceScan_closes (v rest : Str) (hv : balancedFrom v 0 = true) :
    braceScan (v ++ '}' :: rest) 1 = some v := by
  have := braceScan_balanced v 0 ('}' :: rest) hv
  rw [this]
  simp [braceScan]

theorem matchEq_shape (name s1 s2 r : Str)
    (hname : name ≠ []) (hword : ∀ c ∈ name, isWordChar c = true)
    (hs1 : ∀ c ∈ s1, isPySpace c = true) (hs2 : ∀ c ∈ s2, isPySpace c = true)
    (hr : ∀ c, r.head? = some c → isPySpace c = false) :
    matchEq (name ++ (s1 ++ ('=' :: (s2 ++ r)))) = some (name, r) := by
  have htail : ∀ c, (s1 ++ ('=' :: (s2 ++ r))).head? = some c → isWordChar c = false := by
    intro c hc
    cases s1 with
    | nil =>
      simp only [List.nil_append, List.head?_cons, Option.some.injEq] at hc
      subst hc
      decide
    | cons a t =>
      simp only [List.cons_append, List.head?_cons, Option.some.injEq] at hc
      subst hc
      exact nonWord_of_space a (hs1 a (by simp))
  have htake : (name ++ (s1 ++ ('=' :: (s2 ++ r)))).takeWhile isWordChar = name :=
    takeWhile_append_head isWordChar name _ hword htail
  have hdrop : (name ++ (s1 ++ ('=' :: (s2 ++ r)))).dropWhile isWordChar =
      s1 ++ ('=' :: (s2 ++ r)) :=
    dropWhile_append_head isWordChar name _ hword htail
  have hdrop2 : (s1 ++ ('=' :: (s2 ++ r))).dropWhile isPySpace = '=' :: (s2 ++ r) :=
    dropWhile_append_head isPySpace s1 _ hs1
      (by intro c hc; simp only [List.head?_cons, Option.some.injEq] at hc; subst hc; decide)
  have hdrop3 : (s2 ++ r).dropWhile isPySpace = r :=
    dropWhile_append_head isPySpace s2 r hs2 hr
  simp only [matchEq, htake, hdrop, hdrop2, hdrop3, if_neg hname]

theorem matchFieldBrace_shape (name s1 s2 w : Str)
    (hname : name ≠ []) (hword : ∀ c ∈ name, isWordChar c = true)
    (hs1 : ∀ c ∈ s1, isPySpace c = true) (hs2 : ∀ c ∈ s2, isPySpace c = true) :
    matchFieldBrace (name ++ (s1 ++ ('=' :: (s2 ++ ('{' :: w))))) = some (name, w) := by
  have := matchEq_shape name s1 s2 ('{' :: w) hname hword hs1 hs2
    (by intro c hc; simp only [List.head?_cons, Option.some.injEq] at hc; subst hc; decide)
  simp only [matchFieldBrace, this]

/-- Claim C1: for an entry-body line of the form `name = {value}` whose
value is brace-balanced and lies entirely on the line (whatever trails the
closing brace), the field-extraction step stores exactly the whole value,
nested brace groups included — the depth counter does not stop at an inner
closing brace. -/
theorem claim1 (fields : List (Str × Str)) (name s1 s2 v rest : Str)
    (hname : name ≠ []) (hword : ∀ c ∈ name, isWordChar c = true)
    (hs1 : ∀ c ∈ s1, isPySpace c = true) (hs2 : ∀ c ∈ s2, isPySpace c = true)
    (hv : balancedFrom v 0 = true) :
    processLine fields (name ++ (s1 ++ ('=' :: (s2 ++ ('{' :: (v ++ ('}' :: rest))))))) =
      setField fields name v := by
  obtain ⟨c0, name', rfl⟩ : ∃ c0 name', name = c0 :: name' := by
    cases name with
    | nil => cases hname rfl
    | cons a t => exact ⟨a, t, rfl⟩
  have hc0 : isWordChar c0 = true := hword c0 (by simp)
  have hA : (c0 :: name') ++ (s1 ++ ('=' :: (s2 ++ ('{' :: (v ++ ('}' :: rest)))))) =
      ((c0 :: name') ++ (s1 ++ ('=' :: (s2 ++ ('{' :: v))))) ++ '}' :: rest := by
    simp [List.append_assoc]
  have hstrip := pyStrip_shape ((c0 :: name') ++ (s1 ++ ('=' :: (s2 ++ ('{' :: v))))) rest
    (by
      intro c hc
      simp only [List.cons_append, List.head?_cons, Option.some.injEq] at hc
      subst hc
      exact nonSpace_of_word c0 hc0)
    (by simp)
  have hline : pyStrip ((c0 :: name') ++ (s1 ++ ('=' :: (s2 ++ ('{' :: (v ++ ('}' :: rest))))))) =
      (c0 :: name') ++ (s1 ++ ('=' :: (s2 ++ ('{' ::
        (v ++ ('}' :: (rest.reverse.dropWhile isPySpace).reverse)))))) := by
    rw [hA, hstrip]
    simp [List.append_assoc]
  have hne : ((c0 :: name') ++ (s1 ++ ('=' :: (s2 ++ ('{' ::
      (v ++ ('}' :: (rest.reverse.dropWhile isPySpace).reverse))))))) ≠ ([] : Str) := by
    simp
  have hpct : c0 ≠ '%' := by
    intro h
    rw [h] at hc0
    cases hc0
  have hmb := matchFieldBrace_shape (c0 :: name') s1 s2
    (v ++ ('}' :: (rest.reverse.dropWhile isPySpace).reverse)) (by simp) hword hs1 hs2
  have hscan := braceScan_closes v ((rest.reverse.dropWhile isPySpace).reverse) hv
  simp only [processLine, hline, if_neg hne]
  simp only [List.cons_append, List.headD_cons, if_neg hpct]
  simp only [List.cons_append] at hmb
  rw [hmb]
  simp only [hscan]

/-- Witness for claim C1 at a concrete line with a nested brace group. -/
theorem claim1_witness :
    processLine [] ("title".data ++ (" ".data ++ ('=' :: (" ".data ++
      ('{' :: ("A \x7bnested\x7d value".data ++ ('}' :: ",".data))))))) =
      setField [] "title".data "A \x7bnested\x7d value".data :=
  claim1 [] "title".data " ".data " ".data "A \x7bnested\x7d value".data ",".data
    (by decide) (by decide) (by decide) (by decide) (by decide)

/-! ### Claims 2 and 3: tier classification -/

/-- Claim C2: an `inproceedings` venue containing `workshop`
(case-insensitively) is never top-tier; and a venue containing `medrxiv`
(which covers every venue whose arXiv-token occurrences lie inside the
medical-preprint-server name, the carve-out case) is not excluded by the
arXiv rule, so absent all other exclusion tokens it is top-tier. -/
theorem claim2 :
    (∀ venue : Str, containsSub "workshop".data (pyLower venue) = true →
      is_top_conference venue = false) ∧
    (∀ venue : Str, containsSub "medrxiv".data (pyLower venue) = true →
      (∀ t ∈ confExcluded, containsSub t (pyLower venue) = false) →
      is_top_conference venue = true) := by
  constructor
  · intro venue h
    by_cases hv : venue = []
    · rw [hv] at h
      exact absurd h (by decide)
    · have hany : confExcluded.any (fun exc => containsSub exc (pyLower venue)) = true :=
        List.any_eq_true.mpr ⟨"workshop".data, by simp [confExcluded], h⟩
      simp only [is_top_conference, if_neg hv, hany]
      split <;> rfl
  · intro venue hmed hnone
    have hv : venue ≠ [] := by
      intro h
      rw [h] at hmed
      exact absurd hmed (by decide)
    have hany : confExcluded.any (fun exc => containsSub exc (pyLower venue)) = false := by
      rw [List.any_eq_false]
      intro t ht
      rw [hnone t ht]
      simp
    simp only [is_top_conference, if_neg hv, hmed, hany, Bool.not_true, Bool.and_false,
      Bool.not_false]
    split
    · rename_i hcond
      exact hcond
    · rfl

/-- Witness for claim C2 at the two venues named by the specification. -/
theorem claim2_witness :
    is_top_conference "MedRxiv Workshop on X".data = false ∧
    is_top_conference "International Conference on MedRxiv Findings".data = true :=
  ⟨claim2.1 "MedRxiv Workshop on X".data (by decide),
   claim2.2 "International Conference on MedRxiv Findings".data (by decide) (by decide)⟩

/-- Claim C3: an article is classified top-tier (the flag that selects the
Top Journal badge) iff its journal field is nonempty and its lower-cased
form contains none of `arxiv`, `corr`, `medrxiv`; and the flag reported by
`format_entry` for an `article` entry is exactly `is_top_journal` of its
journal field, so `journal = {arXiv}` yields no badge. -/
theorem claim3 :
    (∀ j : Str, is_top_journal j = true ↔
      (j ≠ [] ∧ ∀ t ∈ journalExcluded, containsSub t (pyLower j) = false)) ∧
    (∀ (e : Entry) (n : Option Nat), e.type = "article".data →
      (format_entry e n).2 = is_top_journal (getField e.fields "journal".data [])) := by
  constructor
  · intro j
    by_cases hj : j = []
    · simp [is_top_journal, hj]
    · simp only [is_top_journal, if_neg hj, ne_eq, hj, not_false_iff, true_and]
      constructor
      · intro h t ht
        by_contra hc
        have hc' : containsSub t (pyLower j) = true := by
          revert hc
          cases containsSub t (pyLower j) <;> simp
        have : journalExcluded.any (fun exc => containsSub exc (pyLower j)) = true :=
          List.any_eq_true.mpr ⟨t, ht, hc'⟩
        rw [this] at h
        cases h
      · intro h
        have : journalExcluded.any (fun exc => containsSub exc (pyLower j)) = false := by
          rw [List.any_eq_false]
          intro t ht
          rw [h t ht]
          simp
        simp [this]
  · intro e n htype
    simp [format_entry, htype]

/-- Witness for claim C3: a regular journal is top-tier; an `arXiv` article
gets no badge flag. -/
theorem claim3_witness :
    is_top_journal "Nature".data = true ∧
    (format_entry ⟨"article".data, "k1".data, [("journal".data, "arXiv".data)]⟩ none).2 =
      false := by
  constructor
  · exact (claim3.1 "Nature".data).mpr ⟨by decide, by decide⟩
  · rw [claim3.2 ⟨"article".data, "k1".data, [("journal".data, "arXiv".data)]⟩ none rfl]
    decide

/-! ### Claim 4: deduplication by normalized title -/

theorem dedup_length : ∀ (es : List Entry) (seen : List Str) (cnt : Nat),
    (dedup es seen cnt).1.length + (dedup es seen cnt).2 = es.length + cnt := by
  intro es
  induction es with
  | nil => intro seen cnt; simp [dedup]
  | cons e rest ih =>
    intro seen cnt
    by_cases h : normTitle e.fields ≠ [] ∧ normTitle e.fields ∈ seen
    · simp only [dedup, if_pos h]
      rw [ih]
      simp only [List.length_cons]
      omega
    · simp only [dedup, if_neg h, List.length_cons]
      have := ih (if normTitle e.fields = [] then seen else normTitle e.fields :: seen) cnt
      omega

theorem dedup_filter_seen (t : Str) (ht : t ≠ []) : ∀ (es : List Entry) (seen : List Str)
    (cnt : Nat), t ∈ seen →
    (dedup es seen cnt).1.filter (fun e => decide (normTitle e.fields = t)) = [] := by
  intro es
  induction es with
  | nil => intro seen cnt _; simp [dedup]
  | cons e rest ih =>
    intro seen cnt hts
    by_cases h : normTitle e.fields ≠ [] ∧ normTitle e.fields ∈ seen
    · simp only [dedup, if_pos h]
      exact ih seen (cnt + 1) hts
    · have hne : normTitle e.fields ≠ t := by
        intro he
        exact h ⟨by rw [he]; exact ht, by rw [he]; exact hts⟩
      simp only [dedup, if_neg h, List.filter_cons, decide_eq_true_eq, hne, if_neg hne]
      have hseen' : t ∈ (if normTitle e.fields = [] then seen else normTitle e.fields :: seen) := by
        split
        · exact hts
        · exact List.mem_cons_of_mem _ hts
      simpa using ih _ cnt hseen'

theorem dedup_filter_fresh (t : Str) (ht : t ≠ []) : ∀ (es : List Entry) (seen : List Str)
    (cnt : Nat), t ∉ seen →
    (dedup es seen cnt).1.filter (fun e => decide (normTitle e.fields = t)) =
      (es.filter (fun e => decide (normTitle e.fields = t))).take 1 := by
  intro es
  induction es with
  | nil => intro seen cnt _; simp [dedup]
  | cons e rest ih =>
    intro seen cnt hts
    by_cases h : normTitle e.fields ≠ [] ∧ normTitle e.fields ∈ seen
    · have hne : normTitle e.fields ≠ t := by
        intro he
        rw [he] at h
        exact hts h.2
      simp only [dedup, if_pos h, List.filter_cons, decide_eq_true_eq, hne, if_neg hne]
      exact ih seen (cnt + 1) hts
    · by_cases het : normTitle e.fields = t
      · simp only [dedup, if_neg h]
        rw [show (if normTitle e.fields = [] then seen else normTitle e.fields :: seen) =
            t :: seen from by rw [het, if_neg ht]]
        have h1 : (dedup rest (t :: seen) cnt).1.filter
            (fun e => decide (normTitle e.fields = t)) = [] :=
          dedup_filter_seen t ht rest _ cnt (List.mem_cons_self _ _)
        have hpe : decide (normTitle e.fields = t) = true := by simp [het]
        rw [List.filter_cons_of_pos (l := (dedup rest (t :: seen) cnt).1) hpe,
          List.filter_cons_of_pos (l := rest) hpe, h1]
        simp
      · simp only [dedup, if_neg h, List.filter_cons, decide_eq_true_eq, het, if_neg het]
        have hts' : t ∉ (if normTitle e.fields = [] then seen
            else normTitle e.fields :: seen) := by
          split
          · exact hts
          · intro hc
            rcases List.mem_cons.mp hc with hc | hc
            · exact het hc.symm
            · exact hts hc
        exact ih _ cnt hts'

theorem dedup_filter_empty : ∀ (es : List Entry) (seen : List Str) (cnt : Nat),
    (dedup es seen cnt).1.filter (fun e => decide (normTitle e.fields = [])) =
      es.filter (fun e => decide (normTitle e.fields = [])) := by
  intro es
  induction es with
  | nil => intro seen cnt; simp [dedup]
  | cons e rest ih =>
    intro seen cnt
    by_cases h : normTitle e.fields ≠ [] ∧ normTitle e.fields ∈ seen
    · have hne : ¬ normTitle e.fields = [] := h.1
      simp only [dedup, if_pos h, List.filter_cons, decide_eq_true_eq, hne, if_neg hne]
      exact ih seen (cnt + 1)
    · simp only [dedup, if_neg h, List.filter_cons, decide_eq_true_eq]
      by_cases he : normTitle e.fields = []
      · simp only [he, if_pos rfl]
        rw [ih]
      · simp only [he, if_neg he]
        rw [ih]

/-- Claim C4: among entries sharing one nonempty normalized title, exactly
the first in source order survives parsing (the survivors filtered to that
title are the first source occurrence); entries with an empty normalized
title all survive; and the duplicate counter accounts exactly for the
dropped entries. -/
theorem claim4 (ms : List (Str × Str × Str)) (t : Str) :
    (t ≠ [] →
      (parse_bibtex ms).1.filter (fun e => decide (normTitle e.fields = t)) =
        ((ms.map buildEntry).filter (fun e => decide (normTitle e.fields = t))).take 1) ∧
    (parse_bibtex ms).1.filter (fun e => decide (normTitle e.fields = [])) =
      (ms.map buildEntry).filter (fun e => decide (normTitle e.fields = [])) ∧
    (parse_bibtex ms).1.length + (parse_bibtex ms).2 = (ms.map buildEntry).length := by
  refine ⟨fun ht => dedup_filter_fresh t ht _ [] 0 (by simp),
    dedup_filter_empty _ [] 0, ?_⟩
  have := dedup_length (ms.map buildEntry) [] 0
  simpa using this

/-- Witness for claim C4: two entries whose titles differ only in case and
braces; only the first survives the title filter. -/
theorem claim4_witness :
    (parse_bibtex [("article".data, "a".data, "title = \x7bDup\x7d".data),
        ("misc".data, "b".data, "title = \x7bDUP\x7d".data)]).1.filter
        (fun e => decide (normTitle e.fields = "dup".data)) =
      (([("article".data, "a".data, "title = \x7bDup\x7d".data),
          ("misc".data, "b".data, "title = \x7bDUP\x7d".data)].map buildEntry).filter
        (fun e => decide (normTitle e.fields = "dup".data))).take 1 :=
  (claim4 [("article".data, "a".data, "title = \x7bDup\x7d".data),
    ("misc".data, "b".data, "title = \x7bDUP\x7d".data)] "dup".data).1 (by decide)

/-! ### Claim 9: global descending numbering -/

/-- The number of records in the non-sentinel buckets among `ys`. -/
def sumB (es : List Entry) (ys : List Int) : Nat :=
  ((ys.filter (fun y => decide (y ≠ 0))).map (fun y => (bucket es y).length)).sum

theorem renderBucket_spec (total : Nat) : ∀ (b : List Entry) (h : Str) (p : Nat),
    renderBucket b (h, total - p) =
      (h ++ renderBucketSpec b total p, total - (p + b.length)) := by
  intro b
  induction b with
  | nil => intro h p; simp [renderBucket, renderBucketSpec]
  | cons e rest ih =>
    intro h p
    have step1 : renderBucket (e :: rest) (h, total - p) =
        renderBucket rest (h ++ (format_entry e (some (total - p))).1, total - (p + 1)) := by
      simp only [renderBucket, List.foldl_cons, Nat.sub_sub]
    rw [step1, ih (h ++ (format_entry e (some (total - p))).1) (p + 1)]
    congr 1
    · simp [renderBucketSpec, List.append_assoc]
    · simp only [List.length_cons]
      omega

theorem sumB_cons_zero (es : List Entry) (ys : List Int) :
    sumB es ((0 : Int) :: ys) = sumB es ys := by
  simp [sumB, List.filter_cons]

theorem sumB_cons_ne (es : List Entry) (y : Int) (ys : List Int) (hy : y ≠ 0) :
    sumB es (y :: ys) = (bucket es y).length + sumB es ys := by
  simp [sumB, List.filter_cons, hy]

theorem yearLoop_spec (es : List Entry) (total : Nat) : ∀ (ys : List Int) (h : Str) (p : Nat),
    ys.foldl (yearStep es) (h, total - p) =
      (h ++ goSpec es total (ys.filter (fun y => decide (y ≠ 0))) p,
        total - (p + sumB es ys)) := by
  intro ys
  induction ys with
  | nil => intro h p; simp [goSpec, sumB]
  | cons y ys' ih =>
    intro h p
    by_cases hy : y = 0
    · subst hy
      have hstep : yearStep es (h, total - p) 0 = (h, total - p) := by
        simp [yearStep]
      simp only [List.foldl_cons, hstep, ih h p, sumB_cons_zero]
      simp [List.filter_cons]
    · have hstep : yearStep es (h, total - p) y =
          (h ++ "<h3>".data ++ (toString y).data ++ "</h3>\n".data ++
            "<ul class=\"publication-list\">\n".data ++
              renderBucketSpec (bucket es y) total p ++ "</ul>\n".data,
            total - (p + (bucket es y).length)) := by
        simp only [yearStep, if_neg hy]
        rw [renderBucket_spec total (bucket es y)
          (h ++ "<h3>".data ++ (toString y).data ++ "</h3>\n".data ++
            "<ul class=\"publication-list\">\n".data) p]
      rw [List.foldl_cons, hstep,
        ih (h ++ "<h3>".data ++ (toString y).data ++ "</h3>\n".data ++
          "<ul class=\"publication-list\">\n".data ++
            renderBucketSpec (bucket es y) total p ++ "</ul>\n".data)
          (p + (bucket es y).length)]
      have hfy : (fun z => decide (z ≠ (0 : Int))) y = true := by simp [hy]
      rw [List.filter_cons_of_pos (l := ys') hfy]
      congr 1
      · simp [goSpec, List.append_assoc]
      · rw [sumB_cons_ne es y ys' hy]
        omega

theorem generate_eq_generateSpec (es : List Entry) :
    generate_publication_list es = generateSpec es := by
  have h := yearLoop_spec es (totalPubs es) (sortDesc (uniqueYears es)) [] 0
  rw [Nat.sub_zero] at h
  have h2 := congrArg Prod.fst h
  simp only [List.nil_append] at h2
  exact h2

theorem foldl_add_length (es : List Entry) : ∀ (ys : List Int) (n : Nat),
    ys.foldl (fun a y => a + (bucket es y).length) n =
      n + (ys.foldr (fun y acc => bucket es y ++ acc) []).length := by
  intro ys
  induction ys with
  | nil => intro n; simp
  | cons y ys' ih =>
    intro n
    simp only [List.foldl_cons, List.foldr_cons, ih, List.length_append]
    omega

theorem totalPubs_eq_renderOrder (es : List Entry) :
    totalPubs es = (renderOrder es).length := by
  unfold totalPubs renderOrder renderYears
  rw [foldl_add_length]
  omega

/-- Claim C9: the render pass equals the closed-form globally numbered
rendering — the record at 0-based global position `p` (year-descending,
within-year insertion order) carries number `total - p`, one countdown
never reset across year sections — and the starting total is exactly the
number of rendered (non-sentinel-year) records, so the first record of the
highest year gets the highest number and the last rendered record gets 1. -/
theorem claim9 (es : List Entry) :
    generate_publication_list es = generateSpec es ∧
    totalPubs es = (renderOrder es).length :=
  ⟨generate_eq_generateSpec es, totalPubs_eq_renderOrder es⟩

/-! ### Claim 5: sentinel-year records are counted but not rendered -/

theorem insertDesc_perm (y : Int) : ∀ l : List Int, List.Perm (insertDesc y l) (y :: l) := by
  intro l
  induction l with
  | nil => simp [insertDesc]
  | cons x xs ih =>
    by_cases hc : x ≤ y
    · simp [insertDesc, hc]
    · simp only [insertDesc, if_neg hc]
      exact (ih.cons x).trans (List.Perm.swap y x xs)

theorem sortDesc_perm : ∀ l : List Int, List.Perm (sortDesc l) l := by
  intro l
  induction l with
  | nil => simp [sortDesc]
  | cons y ys ih => exact (insertDesc_perm y (sortDesc ys)).trans (ih.cons y)

theorem insertDesc_sorted (y : Int) : ∀ l : List Int,
    l.Sorted (· ≥ ·) → (insertDesc y l).Sorted (· ≥ ·) := by
  intro l
  induction l with
  | nil => intro _; simp [insertDesc]
  | cons x xs ih =>
    intro h
    rw [List.sorted_cons] at h
    obtain ⟨hx, hxs⟩ := h
    by_cases hc : x ≤ y
    · simp only [insertDesc, if_pos hc]
      rw [List.sorted_cons]
      refine ⟨?_, ?_⟩
      · intro b hb
        rcases List.mem_cons.mp hb with hb | hb
        · subst hb; exact hc
        · exact le_trans (hx b hb) hc
      · rw [List.sorted_cons]
        exact ⟨hx, hxs⟩
    · simp only [insertDesc, if_neg hc]
      rw [List.sorted_cons]
      refine ⟨?_, ih hxs⟩
      intro b hb
      have hb' := (insertDesc_perm y xs).mem_iff.mp hb
      rcases List.mem_cons.mp hb' with hb2 | hb2
      · subst hb2
        omega
      · exact hx b hb2

theorem sortDesc_sorted : ∀ l : List Int, (sortDesc l).Sorted (· ≥ ·) := by
  intro l
  induction l with
  | nil => simp [sortDesc]
  | cons y ys ih => exact insertDesc_sorted y (sortDesc ys) ih

instance : IsAntisymm Int (· ≥ ·) := ⟨fun _ _ h1 h2 => le_antisymm h2 h1⟩

theorem sortDesc_filter (p : Int → Bool) (l : List Int) :
    sortDesc (l.filter p) = (sortDesc l).filter p :=
  List.eq_of_perm_of_sorted (r := (· ≥ ·))
    ((sortDesc_perm _).trans ((sortDesc_perm l).symm.filter p))
    (sortDesc_sorted _) ((sortDesc_sorted l).filter p)

theorem insertYear_filter_ne (acc : List Int) (y : Int) (hy : y ≠ 0) :
    (insertYear acc y).filter (fun z => decide (z ≠ 0)) =
      insertYear (acc.filter (fun z => decide (z ≠ 0))) y := by
  by_cases hmem : y ∈ acc
  · have hmem' : y ∈ acc.filter (fun z => decide (z ≠ 0)) :=
      List.mem_filter.mpr ⟨hmem, by simp [hy]⟩
    simp [insertYear, hmem, hmem', hy]
  · have hmem' : y ∉ acc.filter (fun z => decide (z ≠ 0)) := fun hc =>
      hmem (List.mem_filter.mp hc).1
    simp [insertYear, hmem, hmem', List.filter_append, hy]

theorem insertYear_filter_zero (acc : List Int) :
    (insertYear acc (0 : Int)).filter (fun z => decide (z ≠ 0)) =
      acc.filter (fun z => decide (z ≠ 0)) := by
  by_cases hmem : (0 : Int) ∈ acc
  · simp [insertYear, hmem]
  · simp [insertYear, hmem, List.filter_append]

theorem uniqueYears_filter_aux : ∀ (es : List Entry) (acc : List Int),
    (es.filter (fun e => decide (extract_year e ≠ 0))).foldl
        (fun ys e => insertYear ys (extract_year e))
        (acc.filter (fun z => decide (z ≠ 0))) =
      (es.foldl (fun ys e => insertYear ys (extract_year e)) acc).filter
        (fun z => decide (z ≠ 0)) := by
  intro es
  induction es with
  | nil => intro acc; simp
  | cons e rest ih =>
    intro acc
    by_cases he : extract_year e = 0
    · have hp : ¬ decide (extract_year e ≠ 0) = true := by simp [he]
      rw [List.filter_cons_of_neg (l := rest) hp, List.foldl_cons]
      have h0 : (insertYear acc (extract_year e)).filter (fun z => decide (z ≠ 0)) =
          acc.filter (fun z => decide (z ≠ 0)) := by
        rw [he]
        exact insertYear_filter_zero acc
      rw [← h0, ih (insertYear acc (extract_year e))]
    · have hp : decide (extract_year e ≠ 0) = true := by simp [he]
      rw [List.filter_cons_of_pos (l := rest) hp, List.foldl_cons, List.foldl_cons]
      rw [← insertYear_filter_ne acc (extract_year e) he]
      exact ih (insertYear acc (extract_year e))

theorem uniqueYears_filter (es : List Entry) :
    uniqueYears (es.filter (fun e => decide (extract_year e ≠ 0))) =
      (uniqueYears es).filter (fun z => decide (z ≠ 0)) := by
  have := uniqueYears_filter_aux es []
  simpa [uniqueYears] using this

theorem renderYears_filter (es : List Entry) :
    renderYears (es.filter (fun e => decide (extract_year e ≠ 0))) = renderYears es := by
  unfold renderYears
  rw [uniqueYears_filter, sortDesc_filter, List.filter_filter]
  apply List.filter_congr
  intro y _
  cases h : decide (y ≠ (0 : Int)) <;> simp

theorem bucket_filter (es : List Entry) (y : Int) (hy : y ≠ 0) :
    bucket (es.filter (fun e => decide (extract_year e ≠ 0))) y = bucket es y := by
  unfold bucket
  rw [List.filter_filter]
  apply List.filter_congr
  intro e _
  by_cases he : extract_year e = y
  · simp [he, hy]
  · simp [he]

theorem goSpec_congr (es es' : List Entry) (total : Nat) :
    ∀ (ys : List Int) (p : Nat), (∀ y ∈ ys, bucket es' y = bucket es y) →
    goSpec es' total ys p = goSpec es total ys p := by
  intro ys
  induction ys with
  | nil => intro p _; rfl
  | cons y ys' ih =>
    intro p hb
    simp only [goSpec]
    rw [hb y (by simp), ih (p + (bucket es y).length) (fun z hz => hb z (by simp [hz]))]

theorem foldl_bucket_congr (es es' : List Entry) :
    ∀ (ys : List Int) (n : Nat), (∀ y ∈ ys, bucket es' y = bucket es y) →
    ys.foldl (fun a y => a + (bucket es' y).length) n =
      ys.foldl (fun a y => a + (bucket es y).length) n := by
  intro ys
  induction ys with
  | nil => intro n _; rfl
  | cons y ys' ih =>
    intro n hb
    simp only [List.foldl_cons]
    rw [hb y (by simp), ih (n + (bucket es y).length) (fun z hz => hb z (by simp [hz]))]

theorem mem_renderYears_ne_zero (es : List Entry) (y : Int) (hy : y ∈ renderYears es) :
    y ≠ 0 := by
  have := List.mem_filter.mp hy
  simpa using this.2

theorem totalPubs_filter (es : List Entry) :
    totalPubs (es.filter (fun e => decide (extract_year e ≠ 0))) = totalPubs es := by
  show (renderYears (es.filter (fun e => decide (extract_year e ≠ 0)))).foldl _ 0 = _
  rw [renderYears_filter]
  exact foldl_bucket_congr es _ (renderYears es) 0
    (fun y hy => bucket_filter es y (mem_renderYears_ne_zero es y hy))

/-- Claim C5: a year field that is missing or fails integer parsing (the
empty string included) yields the sentinel year 0 without failing; the
rendered output is unchanged by removing every sentinel-year record (the
sentinel bucket gets no section and does not influence numbering); and the
final emitted count still includes the sentinel-year records. -/
theorem claim5 :
    (∀ e : Entry, (lookupField e.fields "year".data = none ∨
        pyInt (getField e.fields "year".data "0000".data) = none) →
      extract_year e = 0) ∧
    (∀ es : List Entry, generate_publication_list es =
      generate_publication_list (es.filter (fun e => decide (extract_year e ≠ 0)))) ∧
    (∀ es : List Entry, finalCount es =
      (es.filter (fun e => decide (extract_year e ≠ 0))).length +
        (es.filter (fun e => decide (extract_year e = 0))).length) := by
  refine ⟨?_, ?_, ?_⟩
  · intro e h
    rcases h with h | h
    · have hg : getField e.fields "year".data "0000".data = "0000".data := by
        simp [getField, h]
      unfold extract_year
      rw [hg]
      decide
    · unfold extract_year
      rw [h]
  · intro es
    rw [generate_eq_generateSpec, generate_eq_generateSpec]
    unfold generateSpec
    rw [renderYears_filter, totalPubs_filter]
    exact (goSpec_congr es _ (totalPubs es) (renderYears es) 0
      (fun y hy => bucket_filter es y (mem_renderYears_ne_zero es y hy))).symm
  · intro es
    unfold finalCount
    induction es with
    | nil => rfl
    | cons e rest ih =>
      by_cases he : extract_year e = 0
      · rw [List.filter_cons_of_neg (l := rest) (by simp [he]),
          List.filter_cons_of_pos (l := rest) (by simp [he])]
        simp only [List.length_cons]
        omega
      · rw [List.filter_cons_of_pos (l := rest) (by simp [he]),
          List.filter_cons_of_neg (l := rest) (by simp [he])]
        simp only [List.length_cons]
        omega

/-- Witness for claim C5: an entry with unparsable year gets sentinel 0. -/
theorem claim5_witness :
    pyInt (getField [("year".data, "n/a".data)] "year".data "0000".data) = none ∧
    extract_year ⟨"misc".data, "k".data, [("year".data, "n/a".data)]⟩ = 0 :=
  ⟨by decide, claim5.1 ⟨"misc".data, "k".data, [("year".data, "n/a".data)]⟩
    (Or.inr (by decide))⟩

/-! ### Claim 6: the 1804 -> 2018 fix-up governs bucketing -/

theorem mem_foldl_insertYear_mono : ∀ (es : List Entry) (acc : List Int) (y : Int),
    y ∈ acc → y ∈ es.foldl (fun ys e => insertYear ys (extract_year e)) acc := by
  intro es
  induction es with
  | nil => intro acc y h; simpa using h
  | cons e rest ih =>
    intro acc y h
    simp only [List.foldl_cons]
    apply ih
    unfold insertYear
    split
    · exact h
    · exact List.mem_append_left _ h

theorem extract_year_mem_uniqueYears : ∀ (es : List Entry) (acc : List Int) (e : Entry),
    e ∈ es → extract_year e ∈ es.foldl (fun ys e => insertYear ys (extract_year e)) acc := by
  intro es
  induction es with
  | nil => intro acc e h; cases h
  | cons e' rest ih =>
    intro acc e h
    rcases List.mem_cons.mp h with h | h
    · subst h
      simp only [List.foldl_cons]
      apply mem_foldl_insertYear_mono
      unfold insertYear
      split
      · assumption
      · exact List.mem_append_right _ (by simp)
    · simp only [List.foldl_cons]
      exact ih _ e h

theorem extract_year_1804 (e : Entry)
    (hy : lookupField e.fields "year".data = some "1804".data) :
    extract_year e = 2018 := by
  have hg : getField e.fields "year".data "0000".data = "1804".data := by
    simp [getField, hy]
  unfold extract_year
  rw [hg]
  decide

/-- Claim C6: a record whose year field parses to 1804 is extracted as
2018, lands in the 2018 bucket and not in an 1804 bucket, and the 2018
section is among the rendered year sections. -/
theorem claim6 (e : Entry) (es : List Entry)
    (hy : lookupField e.fields "year".data = some "1804".data) :
    extract_year e = 2018 ∧
    (e ∈ es → e ∈ bucket es 2018 ∧ e ∉ bucket es 1804 ∧
      (2018 : Int) ∈ renderYears es) := by
  have h2018 := extract_year_1804 e hy
  refine ⟨h2018, fun hmem => ⟨?_, ?_, ?_⟩⟩
  · exact List.mem_filter.mpr ⟨hmem, by simp [h2018]⟩
  · intro hc
    have := (List.mem_filter.mp hc).2
    rw [h2018] at this
    simp at this
  · have h1 : (2018 : Int) ∈ uniqueYears es := by
      unfold uniqueYears
      rw [← h2018]
      exact extract_year_mem_uniqueYears es [] e hmem
    have h2 : (2018 : Int) ∈ sortDesc (uniqueYears es) :=
      (sortDesc_perm (uniqueYears es)).mem_iff.mpr h1
    exact List.mem_filter.mpr ⟨h2, by decide⟩

/-- Witness for claim C6 at a concrete 1804-year record. -/
theorem claim6_witness :
    extract_year ⟨"misc".data, "k".data, [("year".data, "1804".data)]⟩ = 2018 ∧
    (⟨"misc".data, "k".data, [("year".data, "1804".data)]⟩ : Entry) ∈
      bucket [⟨"misc".data, "k".data, [("year".data, "1804".data)]⟩] 2018 ∧
    (⟨"misc".data, "k".data, [("year".data, "1804".data)]⟩ : Entry) ∉
      bucket [⟨"misc".data, "k".data, [("year".data, "1804".data)]⟩] 1804 := by
  have h := claim6 ⟨"misc".data, "k".data, [("year".data, "1804".data)]⟩
    [⟨"misc".data, "k".data, [("year".data, "1804".data)]⟩] (by decide)
  have h2 := h.2 (by simp)
  exact ⟨h.1, h2.1, h2.2.1⟩

/-! ### Claim 10: the fix-up affects bucketing only, not the rendered year -/

theorem containsSub_1804 (C : Str) :
    containsSub "1804</div>".data ("1804".data ++ ("</div>\n".data ++ C)) = true := by
  have h : "1804".data ++ ("</div>\n".data ++ C) = "1804</div>".data ++ ("\n".data ++ C) := by
    rw [← List.append_assoc, ← List.append_assoc]
    congr 1
  rw [h]
  exact containsSub_parts _ [] _

/-- Claim C10: for a record whose year field is the string `1804`, the
record is bucketed (and hence sectioned) under 2018, but the year text
inside the entry's own venue line is the raw field string `1804`, because
`format_entry` reads the raw year field, not the corrected extracted
year. -/
theorem claim10 (e : Entry) (n : Option Nat) (es : List Entry)
    (hy : lookupField e.fields "year".data = some "1804".data) :
    extract_year e = 2018 ∧
    (e ∈ es → e ∈ bucket es 2018 ∧ e ∉ bucket es 1804) ∧
    containsSub "1804</div>".data (format_entry e n).1 = true := by
  have h2018 := extract_year_1804 e hy
  refine ⟨h2018, fun hmem => ⟨List.mem_filter.mpr ⟨hmem, by simp [h2018]⟩, ?_⟩, ?_⟩
  · intro hc
    have := (List.mem_filter.mp hc).2
    rw [h2018] at this
    simp at this
  · have hyear : getField e.fields "year".data [] = "1804".data := by
      simp [getField, hy]
    by_cases h1 : e.type = "article".data
    · simp only [format_entry, hyear, h1, if_pos rfl]
      simp only [List.append_assoc]
      repeat (first | exact containsSub_1804 _ | apply containsSub_append_right)
    · by_cases h2 : e.type = "inproceedings".data
      · simp only [format_entry, hyear, h1, h2, if_neg h1, if_pos rfl]
        simp only [List.append_assoc]
        repeat (first | exact containsSub_1804 _ | apply containsSub_append_right)
      · simp only [format_entry, hyear, h1, h2, if_neg h1, if_neg h2]
        simp only [List.append_assoc]
        repeat (first | exact containsSub_1804 _ | apply containsSub_append_right)

/-- Witness for claim C10 at a concrete 1804-year article. -/
theorem claim10_witness :
    extract_year ⟨"article".data, "k".data,
      [("year".data, "1804".data), ("journal".data, "Nature".data)]⟩ = 2018 ∧
    containsSub "1804</div>".data
      (format_entry ⟨"article".data, "k".data,
        [("year".data, "1804".data), ("journal".data, "Nature".data)]⟩ none).1 = true := by
  have h := claim10 ⟨"article".data, "k".data,
    [("year".data, "1804".data), ("journal".data, "Nature".data)]⟩ none [] (by decide)
  exact ⟨h.1, h.2.2⟩

/-! ### Claims 7 and 8: accent decoding and idempotence of normalization -/

theorem scanAux_nil (step : Str → Option (Str × Str)) : ∀ f : Nat, scanAux step f [] = [] := by
  intro f
  cases f <;> rfl

theorem scanAux_irrel (step : Str → Option (Str × Str))
    (hstep : ∀ s out rest, step s = some (out, rest) → rest.length < s.length) :
    ∀ (f1 f2 : Nat) (s : Str), s.length ≤ f1 → s.length ≤ f2 →
    scanAux step f1 s = scanAux step f2 s := by
  intro f1
  induction f1 with
  | zero =>
    intro f2 s h1 _
    have : s = [] := List.length_eq_zero.mp (Nat.le_zero.mp h1)
    subst this
    rw [scanAux_nil, scanAux_nil]
  | succ f1' ih =>
    intro f2 s h1 h2
    cases s with
    | nil => rw [scanAux_nil, scanAux_nil]
    | cons c t =>
      cases f2 with
      | zero => simp at h2
      | succ f2' =>
        cases hs : step (c :: t) with
        | none =>
          have h1' : t.length ≤ f1' := by simp at h1; omega
          have h2' : t.length ≤ f2' := by simp at h2; omega
          simp only [scanAux, hs]
          rw [ih f2' t h1' h2']
        | some pr =>
          obtain ⟨out, rest⟩ := pr
          have hr := hstep _ _ _ hs
          simp only [List.length_cons] at hr h1 h2
          simp only [scanAux, hs]
          rw [ih f2' rest (by omega) (by omega)]

theorem scan_cons_none (step : Str → Option (Str × Str)) (c : Char) (t : Str)
    (h : step (c :: t) = none) : scan step (c :: t) = c :: scan step t := by
  unfold scan
  simp only [List.length_cons, scanAux, h]

theorem scan_cons_some (step : Str → Option (Str × Str))
    (hstep : ∀ s out rest, step s = some (out, rest) → rest.length < s.length)
    (c : Char) (t out rest : Str) (h : step (c :: t) = some (out, rest)) :
    scan step (c :: t) = out ++ scan step rest := by
  unfold scan
  simp only [List.length_cons, scanAux, h]
  congr 1
  have hr := hstep _ _ _ h
  simp only [List.length_cons] at hr
  exact scanAux_irrel step hstep t.length rest.length rest (by omega) (by omega)

theorem dropHeadBrace_le (u : Str) : (dropHeadBrace u).length ≤ u.length := by
  unfold dropHeadBrace
  split
  · cases u <;> simp
  · exact le_refl _

theorem tryCore2_lt (e1 e2 : Char) (tbl : List (Char × Char)) :
    ∀ (s : Str) (r : Char) (rest : Str),
    tryCore2 e1 e2 tbl s = some (r, rest) → rest.length < s.length := by
  intro s r rest h
  match s with
  | [] => simp [tryCore2] at h
  | [a] => simp [tryCore2] at h
  | [a, b] => simp [tryCore2] at h
  | a :: b :: x :: u =>
    simp only [tryCore2] at h
    by_cases hc : a = e1 ∧ b = e2
    · rw [if_pos hc] at h
      cases hl : lookupTbl tbl x with
      | none => rw [hl] at h; simp at h
      | some r0 =>
        rw [hl] at h
        simp only [Option.map_some'] at h
        obtain ⟨-, h2⟩ := Prod.mk.injEq .. ▸ Option.some.injEq _ _ ▸ h
        have := dropHeadBrace_le u
        simp only [List.length_cons]
        cases h
        omega
    · rw [if_neg hc] at h
      cases h

theorem tryPat2_lt (e1 e2 : Char) (tbl : List (Char × Char)) :
    ∀ (s : Str) (r : Char) (rest : Str),
    tryPat2 e1 e2 tbl s = some (r, rest) → rest.length < s.length := by
  intro s r rest h
  unfold tryPat2 at h
  by_cases hh : s.headD ' ' = '{'
  · rw [if_pos hh] at h
    cases hc : tryCore2 e1 e2 tbl s.tail with
    | none =>
      rw [hc] at h
      exact tryCore2_lt e1 e2 tbl _ _ _ h
    | some pr =>
      rw [hc] at h
      have hpr : pr = (r, rest) := Option.some.inj h
      subst hpr
      have hlt := tryCore2_lt e1 e2 tbl s.tail r rest hc
      have : s.tail.length ≤ s.length := by cases s <;> simp
      omega
  · rw [if_neg hh] at h
    exact tryCore2_lt e1 e2 tbl _ _ _ h

theorem tryCore3_lt (e1 e2 e3 : Char) (tbl : List (Char × Char)) :
    ∀ (s : Str) (r : Char) (rest : Str),
    tryCore3 e1 e2 e3 tbl s = some (r, rest) → rest.length < s.length := by
  intro s r rest h
  match s with
  | [] => simp [tryCore3] at h
  | [a] => simp [tryCore3] at h
  | [a, b] => simp [tryCore3] at h
  | [a, b, b2] => simp [tryCore3] at h
  | a :: b :: b2 :: x :: u =>
    simp only [tryCore3] at h
    by_cases hc : a = e1 ∧ b = e2 ∧ b2 = e3
    · rw [if_pos hc] at h
      cases hl : lookupTbl tbl x with
      | none => rw [hl] at h; simp at h
      | some r0 =>
        rw [hl] at h
        simp only [Option.map_some'] at h
        have := dropHeadBrace_le u
        simp only [List.length_cons]
        cases h
        omega
    · rw [if_neg hc] at h
      cases h

theorem tryPat3_lt (e1 e2 e3 : Char) (tbl : List (Char × Char)) :
    ∀ (s : Str) (r : Char) (rest : Str),
    tryPat3 e1 e2 e3 tbl s = some (r, rest) → rest.length < s.length := by
  intro s r rest h
  unfold tryPat3 at h
  by_cases hh : s.headD ' ' = '{'
  · rw [if_pos hh] at h
    cases hc : tryCore3 e1 e2 e3 tbl s.tail with
    | none =>
      rw [hc] at h
      exact tryCore3_lt e1 e2 e3 tbl _ _ _ h
    | some pr =>
      rw [hc] at h
      have hpr : pr = (r, rest) := Option.some.inj h
      subst hpr
      have hlt := tryCore3_lt e1 e2 e3 tbl s.tail r rest hc
      have : s.tail.length ≤ s.length := by cases s <;> simp
      omega
  · rw [if_neg hh] at h
    exact tryCore3_lt e1 e2 e3 tbl _ _ _ h

theorem accStep2_lt (e1 e2 : Char) (tbl : List (Char × Char)) :
    ∀ (s : Str) (out rest : Str),
    (tryPat2 e1 e2 tbl s).map (fun p => (([p.1] : Str), p.2)) = some (out, rest) →
    rest.length < s.length := by
  intro s out rest h
  cases hc : tryPat2 e1 e2 tbl s with
  | none => rw [hc] at h; cases h
  | some pr =>
    rw [hc] at h
    cases h
    exact tryPat2_lt e1 e2 tbl s pr.1 pr.2 (by rw [hc])

theorem accStep3_lt (e1 e2 e3 : Char) (tbl : List (Char × Char)) :
    ∀ (s : Str) (out rest : Str),
    (tryPat3 e1 e2 e3 tbl s).map (fun p => (([p.1] : Str), p.2)) = some (out, rest) →
    rest.length < s.length := by
  intro s out rest h
  cases hc : tryPat3 e1 e2 e3 tbl s with
  | none => rw [hc] at h; cases h
  | some pr =>
    rw [hc] at h
    cases h
    exact tryPat3_lt e1 e2 e3 tbl s pr.1 pr.2 (by rw [hc])

theorem pfx_length_le (p : Str) : ∀ s : Str, pfx p s = true → p.length ≤ s.length := by
  induction p with
  | nil => intro s _; simp
  | cons a as ih =>
    intro s h
    cases s with
    | nil => cases h
    | cons b bs =>
      simp only [pfx, Bool.and_eq_true] at h
      simp only [List.length_cons]
      exact Nat.succ_le_succ (ih bs h.2)

theorem andStep_lt : ∀ (s out rest : Str), andStep s = some (out, rest) →
    rest.length < s.length := by
  intro s out rest h
  unfold andStep at h
  split at h
  · rename_i hp
    cases h
    have h5 := pfx_length_le " and ".data s hp
    simp only [List.length_drop]
    simp at h5
    omega
  · cases h

theorem kainzStep_lt : ∀ (s out rest : Str), kainzStep s = some (out, rest) →
    rest.length < s.length := by
  intro s out rest h
  unfold kainzStep at h
  split at h
  · rename_i hp
    cases h
    have h15 := pfx_length_le "Kainz, Bernhard".data s hp.1
    simp only [List.length_drop]
    simp at h15
    omega
  · cases h

theorem tryCore2_none (e2 : Char) (tbl : List (Char × Char)) :
    ∀ s : Str, (∀ c ∈ s, c ≠ bslash) → tryCore2 bslash e2 tbl s = none := by
  intro s h
  match s with
  | [] => rfl
  | [a] => rfl
  | [a, b] => rfl
  | a :: b :: x :: u =>
    have ha : a ≠ bslash := h a (by simp)
    simp [tryCore2, ha]

theorem tryPat2_none (e2 : Char) (tbl : List (Char × Char)) :
    ∀ s : Str, (∀ c ∈ s, c ≠ bslash) → tryPat2 bslash e2 tbl s = none := by
  intro s h
  have h1 := tryCore2_none e2 tbl s h
  have h2 : tryCore2 bslash e2 tbl s.tail = none := by
    apply tryCore2_none
    intro c hc
    cases s with
    | nil => simp at hc
    | cons a t => exact h c (List.mem_cons_of_mem _ hc)
  unfold tryPat2
  by_cases hh : s.headD ' ' = '{'
  · simp only [if_pos hh, h2, h1]
  · simp only [if_neg hh, h1]

theorem subPat2_id (e2 : Char) (tbl : List (Char × Char)) :
    ∀ s : Str, (∀ c ∈ s, c ≠ bslash) → subPat2 bslash e2 tbl s = s := by
  intro s
  induction s with
  | nil => intro _; rfl
  | cons c t ih =>
    intro h
    have hnone := tryPat2_none e2 tbl (c :: t) h
    have ht := ih (fun x hx => h x (List.mem_cons_of_mem _ hx))
    unfold subPat2 at ht ⊢
    rw [scan_cons_none _ c t (by simp [hnone]), ht]

theorem tryCore3_none (e2 e3 : Char) (tbl : List (Char × Char)) :
    ∀ s : Str, (∀ c ∈ s, c ≠ bslash) → tryCore3 bslash e2 e3 tbl s = none := by
  intro s h
  match s with
  | [] => rfl
  | [a] => rfl
  | [a, b] => rfl
  | [a, b, b2] => rfl
  | a :: b :: b2 :: x :: u =>
    have ha : a ≠ bslash := h a (by simp)
    simp [tryCore3, ha]

theorem tryPat3_none (e2 e3 : Char) (tbl : List (Char × Char)) :
    ∀ s : Str, (∀ c ∈ s, c ≠ bslash) → tryPat3 bslash e2 e3 tbl s = none := by
  intro s h
  have h1 := tryCore3_none e2 e3 tbl s h
  have h2 : tryCore3 bslash e2 e3 tbl s.tail = none := by
    apply tryCore3_none
    intro c hc
    cases s with
    | nil => simp at hc
    | cons a t => exact h c (List.mem_cons_of_mem _ hc)
  unfold tryPat3
  by_cases hh : s.headD ' ' = '{'
  · simp only [if_pos hh, h2, h1]
  · simp only [if_neg hh, h1]

theorem subPat3_id (e2 e3 : Char) (tbl : List (Char × Char)) :
    ∀ s : Str, (∀ c ∈ s, c ≠ bslash) → subPat3 bslash e2 e3 tbl s = s := by
  intro s
  induction s with
  | nil => intro _; rfl
  | cons c t ih =>
    intro h
    have hnone := tryPat3_none e2 e3 tbl (c :: t) h
    have ht := ih (fun x hx => h x (List.mem_cons_of_mem _ hx))
    unfold subPat3 at ht ⊢
    rw [scan_cons_none _ c t (by simp [hnone]), ht]

theorem andSub_id : ∀ s : Str, containsSub " and ".data s = false → andSub s = s := by
  intro s
  induction s with
  | nil => intro _; rfl
  | cons c t ih =>
    intro h
    have h' : pfx " and ".data (c :: t) = false ∧ containsSub " and ".data t = false := by
      simpa [containsSub] using h
    have hstep : andStep (c :: t) = none := by simp [andStep, h'.1]
    unfold andSub at *
    rw [scan_cons_none _ c t hstep, ih h'.2]

theorem kainzSub_id : ∀ s : Str,
    containsSub "Kainz, Bernhard".data s = false → kainzSub s = s := by
  intro s
  induction s with
  | nil => intro _; rfl
  | cons c t ih =>
    intro h
    have h' : pfx "Kainz, Bernhard".data (c :: t) = false ∧
        containsSub "Kainz, Bernhard".data t = false := by
      simpa [containsSub] using h
    have hstep : kainzStep (c :: t) = none := by simp [kainzStep, h'.1]
    unfold kainzSub at *
    rw [scan_cons_none _ c t hstep, ih h'.2]

theorem removeChar_id (x : Char) : ∀ s : Str, (∀ c ∈ s, c ≠ x) → removeChar x s = s := by
  intro s
  induction s with
  | nil => intro _; rfl
  | cons c t ih =>
    intro h
    have hc : c ≠ x := h c (by simp)
    simp only [removeChar, if_neg hc]
    rw [ih (fun y hy => h y (List.mem_cons_of_mem _ hy))]

/-- On author strings containing no backslash, no braces, no `and`
separator and no occurrence of the distinguished-author pattern, every
stage of `format_authors` is the identity. -/
theorem format_authors_id (s : Str)
    (hb : ∀ c ∈ s, c ≠ bslash) (hl : ∀ c ∈ s, c ≠ '{') (hr : ∀ c ∈ s, c ≠ '}')
    (ha : containsSub " and ".data s = false)
    (hk : containsSub "Kainz, Bernhard".data s = false) :
    format_authors s = s := by
  by_cases hs : s = []
  · subst hs; rfl
  · unfold format_authors
    rw [if_neg hs]
    simp only [subPat2_id dquote umlautTbl s hb, subPat2_id squote acuteTbl s hb,
      subPat2_id btick graveTbl s hb, subPat2_id '^' circTbl s hb,
      subPat2_id '~' tildeTbl s hb, subPat3_id 'c' ' ' [('c', 'ç')] s hb,
      subPat3_id 'c' ' ' [('C', 'Ç')] s hb, subPat2_id 's' [('s', 'ß')] s hb,
      removeChar_id '{' s hl, removeChar_id '}' s hr, andSub_id s ha, kainzSub_id s hk]

/-- Counterexample to claim C8 as stated: author normalization is not
idempotent on every string — replacing `' and '` by `', '` can expose a
new `' and '` occurrence that only a second pass rewrites. -/
theorem claim8_counterexample :
    format_authors (format_authors "a and and b".data) ≠
      format_authors "a and and b".data := by decide

/-- Claim C8 (amended): author normalization is idempotent on strings on
which it acts as the identity — those containing no backslash escape, no
brace, no `' and '` separator and no occurrence of the distinguished-author
pattern `Kainz, Bernhard` (e.g. any already comma-joined, accent-decoded,
name-normalized author list).  In general it is not idempotent: a first
pass can expose a new `' and '` occurrence, as the counterexample
`'a and and b'` shows. -/
theorem claim8 (s : Str)
    (hb : ∀ c ∈ s, c ≠ bslash) (hl : ∀ c ∈ s, c ≠ '{') (hr : ∀ c ∈ s, c ≠ '}')
    (ha : containsSub " and ".data s = false)
    (hk : containsSub "Kainz, Bernhard".data s = false) :
    format_authors (format_authors s) = format_authors s := by
  have h := format_authors_id s hb hl hr ha hk
  rw [h]
  exact h

/-- Witness for claim C8 on a normalized author list. -/
theorem claim8_witness :
    format_authors (format_authors "Miller, A., Kainz, B.".data) =
      format_authors "Miller, A., Kainz, B.".data :=
  claim8 "Miller, A., Kainz, B.".data (by decide) (by decide) (by decide) (by decide)
    (by decide)

theorem scan3_none (step : Str → Option (Str × Str)) (a b c : Char)
    (h0 : step [a, b, c] = none) (h1 : step [b, c] = none) (h2 : step [c] = none) :
    scan step [a, b, c] = [a, b, c] := by
  rw [scan_cons_none step a [b, c] h0, scan_cons_none step b [c] h1,
    scan_cons_none step c [] h2]
  rfl

theorem subPat2_id3 (e2 : Char) (tbl : List (Char × Char)) (c : Char) (hc1 : c ≠ '{')
    (hne : dquote ≠ e2 ∨ lookupTbl tbl c = none) :
    subPat2 bslash e2 tbl [bslash, dquote, c] = [bslash, dquote, c] := by
  have h0 : tryCore2 bslash e2 tbl [bslash, dquote, c] = none := by
    rcases hne with hne | hne
    · simp [tryCore2, hne]
    · simp only [tryCore2]
      split
      · simp [hne]
      · rfl
  have hp0 : tryPat2 bslash e2 tbl [bslash, dquote, c] = none := by
    unfold tryPat2
    rw [if_neg (show ¬ ([bslash, dquote, c] : Str).headD ' ' = '{' by
      simp only [List.headD_cons]; decide)]
    exact h0
  have hp1 : tryPat2 bslash e2 tbl [dquote, c] = none := by
    unfold tryPat2
    rw [if_neg (show ¬ ([dquote, c] : Str).headD ' ' = '{' by
      simp only [List.headD_cons]; decide)]
    rfl
  have hp2 : tryPat2 bslash e2 tbl [c] = none := by
    unfold tryPat2
    rw [if_neg (by simpa using hc1)]
    rfl
  unfold subPat2
  exact scan3_none _ _ _ _ (by simp [hp0]) (by simp [hp1]) (by simp [hp2])

theorem subPat3_id3 (e2 e3 : Char) (tbl : List (Char × Char)) (c : Char) (hc1 : c ≠ '{') :
    subPat3 bslash e2 e3 tbl [bslash, dquote, c] = [bslash, dquote, c] := by
  have hp0 : tryPat3 bslash e2 e3 tbl [bslash, dquote, c] = none := by
    unfold tryPat3
    rw [if_neg (show ¬ ([bslash, dquote, c] : Str).headD ' ' = '{' by
      simp only [List.headD_cons]; decide)]
    rfl
  have hp1 : tryPat3 bslash e2 e3 tbl [dquote, c] = none := by
    unfold tryPat3
    rw [if_neg (show ¬ ([dquote, c] : Str).headD ' ' = '{' by
      simp only [List.headD_cons]; decide)]
    rfl
  have hp2 : tryPat3 bslash e2 e3 tbl [c] = none := by
    unfold tryPat3
    rw [if_neg (by simpa using hc1)]
    rfl
  unfold subPat3
  exact scan3_none _ _ _ _ (by simp [hp0]) (by simp [hp1]) (by simp [hp2])

theorem umlaut_unlisted (c : Char) (hlook : lookupTbl umlautTbl c = none)
    (hc1 : c ≠ '{') (hc2 : c ≠ '}') :
    format_authors [bslash, dquote, c] = [bslash, dquote, c] := by
  have hmem : ∀ x ∈ ([bslash, dquote, c] : Str), x = bslash ∨ x = dquote ∨ x = c := by
    intro x hx
    simpa using hx
  unfold format_authors
  rw [if_neg (by simp : ¬ ([bslash, dquote, c] : Str) = [])]
  simp only [subPat2_id3 dquote umlautTbl c hc1 (Or.inr hlook),
    subPat2_id3 squote acuteTbl c hc1 (Or.inl (by decide)),
    subPat2_id3 btick graveTbl c hc1 (Or.inl (by decide)),
    subPat2_id3 '^' circTbl c hc1 (Or.inl (by decide)),
    subPat2_id3 '~' tildeTbl c hc1 (Or.inl (by decide)),
    subPat3_id3 'c' ' ' [('c', 'ç')] c hc1,
    subPat3_id3 'c' ' ' [('C', 'Ç')] c hc1,
    subPat2_id3 's' [('s', 'ß')] c hc1 (Or.inl (by decide))]
  rw [removeChar_id '{' [bslash, dquote, c] (by
      intro x hx
      rcases hmem x hx with h | h | h <;> subst h
      · decide
      · decide
      · exact hc1),
    removeChar_id '}' [bslash, dquote, c] (by
      intro x hx
      rcases hmem x hx with h | h | h <;> subst h
      · decide
      · decide
      · exact hc2),
    andSub_id [bslash, dquote, c] (by simp [containsSub, pfx]),
    kainzSub_id [bslash, dquote, c] (by simp [containsSub, pfx])]

/-- Counterexample to claim C7 as stated: the diaeresis escape for a letter
outside the explicit table (here `e`) is not decoded at all — the code has
no combining-mark fallback; only the braces are stripped, so neither the
precomposed `ë` nor `e` plus a combining diaeresis is produced. -/
theorem claim7_counterexample :
    format_authors ['{', bslash, dquote, 'e', '}'] = [bslash, dquote, 'e'] ∧
    format_authors ['{', bslash, dquote, 'e', '}'] ≠ ['ë'] ∧
    format_authors ['{', bslash, dquote, 'e', '}'] ≠ ['e', Char.ofNat 776] := by decide

/-- Claim C7 (amended): the diaeresis escape decodes to the precomposed
accented character exactly for the six letters of the explicit table
(`a o u A O U`), in both the brace-wrapped and the bare form — in
particular the brace-wrapped escape for `u` yields the single character
`ü` — while a letter outside the table is left undecoded: there is no
combining-diaeresis fallback. -/
theorem claim7 :
    (∀ p ∈ umlautTbl,
      format_authors ['{', bslash, dquote, p.1, '}'] = [p.2] ∧
      format_authors [bslash, dquote, p.1] = [p.2]) ∧
    (∀ c : Char, lookupTbl umlautTbl c = none → c ≠ '{' → c ≠ '}' →
      format_authors [bslash, dquote, c] = [bslash, dquote, c]) := by
  constructor
  · decide
  · intro c h h1 h2
    exact umlaut_unlisted c h h1 h2

/-- Witness for claim C7: the brace-wrapped and bare escapes for `u`
decode to `ü`. -/
theorem claim7_witness :
    format_authors ['{', bslash, dquote, 'u', '}'] = ['ü'] ∧
    format_authors [bslash, dquote, 'u'] = ['ü'] :=
  claim7.1 ('u', 'ü') (by decide)

end ParseBib

